import Mathlib

/-!
Verification development for the Bot-Arena poker engine.

The definitions below are a shallow embedding of the Rust sources:
  - src/actions.rs            (HandAction and its JSON codec)
  - src/bet_stage.rs          (BetStage)
  - src/player_components.rs  (Player, PlayerState, ActiveState)
  - src/card_expansion.rs     (ASCII card printing)
  - src/table/mod.rs          (the Table engine: deal, take_action,
                               resolve_hand, views, results)
  - src/table/table_action.rs, src/table/deal_information.rs (action log)

Modelling conventions:
  - Rust i32 / i64 values are modelled as Lean Int.  Where the source
    performs an `as i32` cast the wrap is modelled explicitly
    (see wrapI32); arithmetic overflow of i32 is not at issue in any
    claim and is not modelled.
  - Rust `panic!` / `.unwrap()` failures are modelled by Option-valued
    functions returning none.
  - Rust truncating division `/` and remainder `%` on i32 are modelled
    by Int.tdiv and Int.tmod.
  - External randomness (the shuffled deck) is passed in as an explicit
    `List Card` parameter; drawing from an exhausted deck is none
    (the Rust iterator unwrap would panic).
  - The external hand evaluator (`Arc<Evaluator>`, a read-only shared
    handle stored in the Table) is passed as an explicit function
    parameter `ev : List Card → Int`, larger meaning a stronger hand,
    exactly as the poker crate's `Eval` ordering is used by
    `Table::compare_players`.
  - serde_json `Value`s are modelled by the inductive `JValue`; a text
    frame that is not well-formed JSON is modelled as the `none` input
    of `parse_hand_action` (the `?` on `serde_json::from_str`).
-/

namespace BotArena

/-- Rust `i32::cmp` / `Ord::cmp` on integers. -/
def ordCompareInt (a b : Int) : Ordering :=
  if a < b then .lt else if a = b then .eq else .gt

/-- Rust `i32 as i32` wrap of an i64 value (`amount as i32` in
`parse_hand_action`). -/
def wrapI32 (n : Int) : Int :=
  (n + 2 ^ 31) % 2 ^ 32 - 2 ^ 31

/-- Rust `str::to_lowercase`, restricted to the ASCII alphabet, which is
all the parser's tag comparison needs. -/
def toLowerModel (s : String) : String :=
  String.mk (s.data.map Char.toLower)

/-- A playing card of the external poker crate: rank 2..14
(11 = J, 12 = Q, 13 = K, 14 = A), suit 0..3 (C, D, H, S). -/
structure Card where
  rank : Nat
  suit : Nat
  deriving DecidableEq, Repr

/-- Rank string of the poker crate's `Rank::to_string` ("T" for ten). -/
def rankString (r : Nat) : String :=
  if r = 10 then "T"
  else if r = 11 then "J"
  else if r = 12 then "Q"
  else if r = 13 then "K"
  else if r = 14 then "A"
  else toString r

/-- `CardPrinting::to_ascii_string` from src/card_expansion.rs:
`<Rank><Suit>` with suits C, H, S, D spelt by letter. -/
def Card.toAsciiString (c : Card) : String :=
  rankString c.rank ++
    (if c.suit = 0 then "C"
     else if c.suit = 1 then "D"
     else if c.suit = 2 then "H"
     else "S")

/-- Display form of a card in the external poker crate (used only inside
human-readable log strings such as the showdown report). -/
def Card.displayString (c : Card) : String :=
  "[ " ++ rankString c.rank ++
    (if c.suit = 0 then "♣"
     else if c.suit = 1 then "♦"
     else if c.suit = 2 then "♥"
     else "♠") ++ " ]"

/-- `HandAction` from src/actions.rs. -/
inductive HandAction where
  | Fold : HandAction
  | Check : HandAction
  | Call : HandAction
  | Raise (amount : Int) : HandAction
  deriving DecidableEq, Repr

/-- `HandAction::simple_string` from src/actions.rs. -/
def HandAction.simple_string : HandAction → String
  | .Fold => "Fold"
  | .Check => "Check"
  | .Call => "Call"
  | .Raise amount => "Raise by " ++ toString amount

/-- serde_json `Value`: `jint` is a number stored as an integer, `jfloat`
a number stored as a float (e.g. scientific notation like 2e3), whose
payload no claim inspects. -/
inductive JValue where
  | null : JValue
  | jbool (b : Bool) : JValue
  | jint (n : Int) : JValue
  | jfloat : JValue
  | jstr (s : String) : JValue
  | jarr (elems : List JValue) : JValue
  | jobj (fields : List (String × JValue)) : JValue

/-- First value stored under a key of a JSON object's field list. -/
def findField (k : String) : List (String × JValue) → Option JValue
  | [] => none
  | kv :: kvs => if kv.1 = k then some kv.2 else findField k kvs

/-- serde_json's `v["key"]`: the stored value, or `Null` when the key is
absent or `v` is not an object. -/
def JValue.idx (v : JValue) (k : String) : JValue :=
  match v with
  | .jobj fs => (findField k fs).getD .null
  | _ => .null

/-- serde_json `Value::as_str`. -/
def JValue.as_str : JValue → Option String
  | .jstr s => some s
  | _ => none

/-- serde_json `Value::as_i64`: only numbers stored as integers in the
i64 range qualify; floats and strings give `None`. -/
def JValue.as_i64 : JValue → Option Int
  | .jint n => if -(2 ^ 63) ≤ n ∧ n < 2 ^ 63 then some n else none
  | _ => none

mutual

/-- All string leaves of a JSON value, in document order (object keys,
which are fixed literals of the engine, are not leaves). -/
def stringAtoms : JValue → List String
  | .null => []
  | .jbool _ => []
  | .jint _ => []
  | .jfloat => []
  | .jstr s => [s]
  | .jarr es => stringAtomsList es
  | .jobj fs => stringAtomsObj fs

def stringAtomsList : List JValue → List String
  | [] => []
  | v :: vs => stringAtoms v ++ stringAtomsList vs

def stringAtomsObj : List (String × JValue) → List String
  | [] => []
  | kv :: kvs => stringAtoms kv.2 ++ stringAtomsObj kvs

end

/-- `HandAction::parse_hand_action` from src/actions.rs.  The `none`
input stands for a frame that serde_json failed to parse at all; the
`?` operator then returns serde's own error, whose message is
abstracted here. -/
def parse_hand_action : Option JValue → Except String HandAction
  | none => .error "invalid json"
  | some v =>
    let tag := toLowerModel ((v.idx "action").as_str.getD "bad")
    if tag = "fold" then .ok .Fold
    else if tag = "call" then .ok .Call
    else if tag = "check" then .ok .Check
    else if tag = "raise" then
      match (v.idx "amount").as_i64 with
      | some amount => .ok (.Raise (wrapI32 amount))
      | none => .error "Invalid amount"
    else .error "Invalid action"

/-- `impl fmt::Display for HandAction` from src/actions.rs, at the
level of the JSON object the json crate's `object!` macro builds. -/
def HandAction.display_json : HandAction → JValue
  | .Fold => .jobj [("action", .jstr "fold")]
  | .Call => .jobj [("action", .jstr "call")]
  | .Raise amount => .jobj [("action", .jstr "raise"), ("amount", .jint amount)]
  | .Check => .jobj [("action", .jstr "check")]

/-! ## Player components (src/player_components.rs) -/

def DEFAULT_START_MONEY : Int := 500

/-- `ActiveState` from src/player_components.rs. -/
structure ActiveState where
  hand : Card × Card
  current_bet : Int
  deriving DecidableEq, Repr

/-- `PlayerState` from src/player_components.rs. -/
inductive PlayerState where
  | Folded : PlayerState
  | Active (a : ActiveState) : PlayerState
  deriving DecidableEq, Repr

/-- `PlayerState::is_active`. -/
def PlayerState.is_active : PlayerState → Bool
  | .Folded => false
  | .Active _ => true

/-- `Player` from src/player_components.rs (id is i8 in the source). -/
structure Player where
  player_state : PlayerState
  total_money : Int
  death_hand_number : Option Int
  id : Int
  has_had_turn_this_round : Bool
  deriving DecidableEq, Repr

/-- `Player::new`. -/
def Player.new (id : Int) : Player :=
  { player_state := .Folded
    total_money := DEFAULT_START_MONEY
    death_hand_number := none
    id := id
    has_had_turn_this_round := false }

/-- `Player::is_alive`. -/
def Player.is_alive (p : Player) : Bool :=
  p.death_hand_number.isNone

/-- `Player::deal`. -/
def Player.deal (p : Player) (cards : Card × Card) : Player :=
  { p with
    player_state := .Active { hand := cards, current_bet := 0 }
    has_had_turn_this_round := false }

/-- `Player::fold`; folding a Folded player panics (none). -/
def Player.fold (p : Player) : Option Player :=
  let p := { p with has_had_turn_this_round := true }
  match p.player_state with
  | .Active _ => some { p with player_state := .Folded }
  | .Folded => none

/-- `Player::bet`: transfers money into the current bet, clamped to the
stack (`bet >= total_money` goes all in); returns the updated player and
the amount actually paid.  Betting while Folded panics (none). -/
def Player.bet (p : Player) (bet : Int) : Option (Player × Int) :=
  let p := { p with has_had_turn_this_round := true }
  match p.player_state with
  | .Active a =>
    if bet ≥ p.total_money then
      let all_in_amount := p.total_money
      some ({ p with
                player_state := .Active { a with current_bet := a.current_bet + all_in_amount }
                total_money := p.total_money - all_in_amount },
            all_in_amount)
    else
      some ({ p with
                player_state := .Active { a with current_bet := a.current_bet + bet }
                total_money := p.total_money - bet },
            bet)
  | .Folded => none

/-- `impl Ord for Player` (the final-results comparator): both alive by
total_money, alive beats dead, both dead by death_hand_number. -/
def playerCmp (p q : Player) : Ordering :=
  if p.is_alive && q.is_alive then ordCompareInt p.total_money q.total_money
  else if p.is_alive then .gt
  else if q.death_hand_number.isNone then .lt
  else ordCompareInt (p.death_hand_number.getD 0) (q.death_hand_number.getD 0)

/-- `impl PartialEq for Player`: equality of death_hand_number only. -/
def playerEq (p q : Player) : Bool :=
  p.death_hand_number == q.death_hand_number

/-- `PlayerState::as_json_no_secret_data`: omits the hand. -/
def PlayerState.as_json_no_secret_data : PlayerState → JValue
  | .Folded => .jobj [("state_type", .jstr "folded"), ("details", .jobj [])]
  | .Active a =>
    .jobj [("state_type", .jstr "active"),
           ("details", .jobj [("bet", .jint a.current_bet)])]

/-- `Player::as_json_no_secret_data`. -/
def Player.as_json_no_secret_data (p : Player) : JValue :=
  .jobj [("id", .jint p.id),
         ("player_state", p.player_state.as_json_no_secret_data),
         ("total_money", .jint p.total_money)]

/-- Modelled from the spec: `PlayerState::get_bet` is used by the view
projection in src/table/mod.rs but its definition is not in src/; per
§4.5/§6.1 the view's `current_bet` field carries the viewer's running
bet, an int32, so an Active state yields its current_bet and a Folded
state has no bet (0). -/
def PlayerState.get_bet : PlayerState → Int
  | .Folded => 0
  | .Active a => a.current_bet

/-- Modelled from the spec: `PlayerState::get_cards_json` is used by the
view projection in src/table/mod.rs but its definition is not in src/;
per §4.5/§6.1 the view's `cards` field is the array of the two hole
cards as ASCII strings, and a Folded state has no cards. -/
def PlayerState.get_cards_json : PlayerState → JValue
  | .Folded => .jarr []
  | .Active a => .jarr [.jstr a.hand.1.toAsciiString, .jstr a.hand.2.toAsciiString]

/-! ## BetStage (src/bet_stage.rs) -/

/-- `BetStage` from src/bet_stage.rs. -/
inductive BetStage where
  | PreFlop : BetStage
  | Flop : BetStage
  | Turn : BetStage
  | River : BetStage
  deriving DecidableEq, Repr

/-- `BetStage::next_stage`. -/
def BetStage.next_stage : BetStage → BetStage
  | .PreFlop => .Flop
  | .Flop => .Turn
  | .Turn => .River
  | .River => .PreFlop

/-! ## Action log (src/table/table_action.rs, deal_information.rs) -/

/-- `DealInformation` from src/table/deal_information.rs. -/
structure DealInformation where
  round_number : Int
  dealer_button_index : Nat
  deriving DecidableEq, Repr

/-- `impl fmt::Display for DealInformation`. -/
def DealInformation.displayString (d : DealInformation) : String :=
  "hand number: " ++ toString d.round_number ++ ", dealer index: " ++
    toString d.dealer_button_index

/-- `TableAction` from src/table/table_action.rs. -/
inductive TableAction where
  | TakePlayerAction (id : Int) (a : HandAction) : TableAction
  | DealCards (d : DealInformation) : TableAction
  | AdvanceToFlop : TableAction
  | AdvanceToTurn : TableAction
  | AdvanceToRiver : TableAction
  | EvaluateHand (s : String) : TableAction
  deriving DecidableEq, Repr

/-- `impl fmt::Display for TableAction`. -/
def TableAction.displayString : TableAction → String
  | .TakePlayerAction id a =>
    "Player " ++ toString id ++ " took action " ++ a.simple_string ++ "."
  | .DealCards d => "Table dealt round " ++ d.displayString ++ "."
  | .AdvanceToFlop => "Table advanced to flop."
  | .AdvanceToTurn => "Table advanced to turn."
  | .AdvanceToRiver => "Table advanced to river."
  | .EvaluateHand s =>
    "Table evaluated hand with the following result: " ++ s

/-! ## List helpers mirroring iterator idioms -/

/-- `Iterator::reduce(...).unwrap()` pattern: none on an empty list. -/
def reduceList (f : α → α → α) : List α → Option α
  | [] => none
  | x :: xs => some (xs.foldl f x)

/-- `iter().sum()` for i32 values. -/
def sumList (l : List Int) : Int :=
  l.foldl (· + ·) 0

/-- `Vec::get(i)` / `get_mut(i)` where the index came from an i8 id via
`as usize`: a negative id becomes a huge usize, hence out of bounds. -/
def intIdxGet (l : List Int) (i : Int) : Option Int :=
  if i < 0 then none else l.get? i.toNat

/-- Write through `get_mut(i).unwrap()` at an i8-derived index. -/
def intIdxSet (l : List Int) (i : Int) (x : Int) : Option (List Int) :=
  if i < 0 then none
  else if i.toNat < l.length then some (l.set i.toNat x) else none

/-- Write through `get_mut(i).unwrap()` at a usize index into the player
list. -/
def listSetNat (l : List Player) (i : Nat) (x : Player) : Option (List Player) :=
  if i < l.length then some (l.set i x) else none

/-- Stable insertion of `x` into `l`: `x` goes in front of the first
element that is not strictly below it, so an element inserted from the
left stays in front of later equal elements. -/
def sortInsert (cmp : α → α → Ordering) (x : α) : List α → List α
  | [] => [x]
  | y :: ys => if cmp y x = .lt then y :: sortInsert cmp x ys else x :: y :: ys

/-- Stable sort by a comparator.  Rust's `slice::sort_by` is a stable
sort, and a stable sort's output is uniquely determined by the
comparator, so this insertion sort computes exactly what the source's
`sort_by` calls compute. -/
def sortByCmp (cmp : α → α → Ordering) : List α → List α
  | [] => []
  | x :: xs => sortInsert cmp x (sortByCmp cmp xs)

/-! ## Table (src/table/mod.rs)

The `evaluator: Arc<Evaluator>` field is an immutable shared handle to
the external hand evaluator; it is carried here as an explicit function
parameter `ev` of the operations that consult it instead of a field, so
the Table stays plain data. -/

/-- The `Table` aggregate from src/table/mod.rs. -/
structure Table where
  players : List Player
  flop : Option (Card × Card × Card)
  turn : Option Card
  river : Option Card
  dealer_button_index : Nat
  ante : Int
  hand_number : Int
  current_player_index : Nat
  table_state : BetStage
  player_bets : List Int
  ante_round_increase : Int
  round_actions : List TableAction
  previous_round_actions : List TableAction
  deriving DecidableEq, Repr

/-- `Table::ANTE_INCREASE_AMOUNT`. -/
def ANTE_INCREASE_AMOUNT : Int := 1

/-- `Table::get_current_player` (unwrap is none when out of bounds). -/
def Table.get_current_player (t : Table) : Option Player :=
  t.players.get? t.current_player_index

/-- `Table::get_pot_size`. -/
def Table.get_pot_size (t : Table) : Int :=
  sumList t.player_bets

/-- `Table::get_largest_active_bet`: max over all players of the active
current_bet (0 for folded); `.max().unwrap()` panics on no players. -/
def Table.get_largest_active_bet (t : Table) : Option Int :=
  reduceList max (t.players.map fun p =>
    match p.player_state with
    | .Folded => 0
    | .Active a => a.current_bet)

/-- `Table::check_all_players_ready_for_next_round`. -/
def Table.check_all_players_ready_for_next_round (t : Table) : Option Bool :=
  reduceList (· && ·) (t.players.map fun p =>
    match p.player_state with
    | .Folded => true
    | .Active _ => p.has_had_turn_this_round || p.total_money == 0)

/-- `Table::check_all_active_players_same_bet`. -/
def Table.check_all_active_players_same_bet (t : Table) : Option Bool :=
  match t.get_largest_active_bet with
  | none => none
  | some max_bet =>
    reduceList (· && ·) (t.players.map fun p =>
      match p.player_state with
      | .Folded => true
      | .Active a => p.total_money == 0 || a.current_bet == max_bet)

/-- `Table::is_betting_over`. -/
def Table.is_betting_over (t : Table) : Option Bool :=
  match t.check_all_players_ready_for_next_round,
        t.check_all_active_players_same_bet with
  | some r, some e => some (r && e)
  | _, _ => none

/-- `Table::get_active_player_count`. -/
def Table.get_active_player_count (t : Table) : Option Int :=
  reduceList (· + ·) (t.players.map fun p =>
    match p.player_state with
    | .Folded => (0 : Int)
    | .Active _ => 1)

/-- `Table::is_game_over`: the alive-player count (summed as i8) equals
one. -/
def Table.is_game_over (t : Table) : Option Bool :=
  (reduceList (· + ·) (t.players.map fun p =>
    if p.is_alive then (1 : Int) else 0)).map (· == 1)

/-- `Table::get_player_count`. -/
def Table.get_player_count (t : Table) : Nat :=
  t.players.length

/-- `Table::reset_state_for_new_round`. -/
def Table.reset_state_for_new_round (t : Table) : Table :=
  { t with
    table_state := .PreFlop
    player_bets := List.replicate t.players.length 0
    previous_round_actions := t.round_actions
    round_actions :=
      [.DealCards { round_number := t.hand_number
                    dealer_button_index := t.dealer_button_index }] }

/-- `Table::check_for_player_death`. -/
def Table.check_for_player_death (t : Table) : Table :=
  { t with
    players := t.players.map fun p =>
      if p.death_hand_number.isNone && p.total_money < t.ante then
        { p with death_hand_number := some t.hand_number }
      else p }

/-- One `deck_iterator.next().unwrap()` draw. -/
def drawCard : List Card → Option (Card × List Card)
  | [] => none
  | c :: rest => some (c, rest)

/-- `Table::deal_table_cards`: three flop cards, the turn, the river. -/
def Table.deal_table_cards (t : Table) (deck : List Card) :
    Option (Table × List Card) :=
  match deck with
  | c1 :: c2 :: c3 :: c4 :: c5 :: rest =>
    some ({ t with flop := some (c1, c2, c3), turn := some c4, river := some c5 },
          rest)
  | _ => none

/-- The per-seat body of `Table::deal_player_cards_collect_ante`,
walking players and their pot entries in parallel (the source indexes
`player_bets` by the enumeration index). -/
def dealPlayersGo (ante : Int) :
    List Player → List Int → List Card →
    Option (List Player × List Int × List Card)
  | [], bs, deck => some ([], bs, deck)
  | _ :: _, [], _ => none
  | p :: ps, b :: bs, deck =>
    if p.is_alive then
      match drawCard deck with
      | none => none
      | some (card1, deck) =>
        match drawCard deck with
        | none => none
        | some (card2, deck) =>
          match (p.deal (card1, card2)).bet ante with
          | none => none
          | some (p2, paid) =>
            let p3 := { p2 with has_had_turn_this_round := false }
            match dealPlayersGo ante ps bs deck with
            | none => none
            | some (ps2, bs2, deck2) => some (p3 :: ps2, (b + paid) :: bs2, deck2)
    else
      let p2 := { p with player_state := .Folded }
      match dealPlayersGo ante ps bs deck with
      | none => none
      | some (ps2, bs2, deck2) => some (p2 :: ps2, b :: bs2, deck2)

/-- `Table::deal_player_cards_collect_ante`. -/
def Table.deal_player_cards_collect_ante (t : Table) (deck : List Card) :
    Option Table :=
  match dealPlayersGo t.ante t.players t.player_bets deck with
  | none => none
  | some (ps, bs, _) => some { t with players := ps, player_bets := bs }

/-- Loop body of `Table::find_next_deal_button_index_and_update_current_player`:
advance the dealer button up to `players.len()` times until it lands on
an alive seat. -/
def findDealerGo : Nat → Table → Option Table
  | 0, t => some t
  | k + 1, t =>
    let d1 := if t.dealer_button_index + 1 ≥ t.get_player_count then 0
              else t.dealer_button_index + 1
    let t := { t with dealer_button_index := d1 }
    match t.players.get? d1 with
    | none => none
    | some p => if p.is_alive then some t else findDealerGo k t

/-- Loop body of `Table::update_current_player_index_to_next_active`:
advance the current index up to `players.len()` times, skipping all-in
(money 0) and folded seats. -/
def updateCurrentGo : Nat → Table → Option Table
  | 0, t => some t
  | k + 1, t =>
    let c1 := if t.current_player_index + 1 ≥ t.players.length then 0
              else t.current_player_index + 1
    let t := { t with current_player_index := c1 }
    match t.players.get? c1 with
    | none => none
    | some p =>
      if p.total_money = 0 then updateCurrentGo k t
      else
        match p.player_state with
        | .Folded => updateCurrentGo k t
        | .Active _ => some t

/-- `Table::update_current_player_index_to_next_active`, including the
trailing alive/active panics. -/
def Table.update_current_player_index_to_next_active (t : Table) : Option Table :=
  match updateCurrentGo t.players.length t with
  | none => none
  | some t2 =>
    match t2.players.get? t2.current_player_index with
    | none => none
    | some p =>
      if !p.is_alive then none
      else
        match p.player_state with
        | .Folded => none
        | .Active _ => some t2

/-- `Table::find_next_deal_button_index_and_update_current_player`. -/
def Table.find_next_deal_button_index_and_update_current_player
    (t : Table) : Option Table :=
  match findDealerGo t.players.length t with
  | none => none
  | some t2 =>
    ({ t2 with current_player_index := t2.dealer_button_index
       : Table }).update_current_player_index_to_next_active

/-- `Table::deal`: no-op when the game is over, otherwise advance the
hand number, reset per-hand state, mark deaths, deal from the given
shuffled deck, move the button, and escalate the ante on schedule. -/
def Table.deal (t : Table) (deck : List Card) : Option Table :=
  match t.is_game_over with
  | none => none
  | some true => some t
  | some false =>
    let t := { t with hand_number := t.hand_number + 1 }
    let t := t.reset_state_for_new_round
    let t := t.check_for_player_death
    match t.deal_table_cards deck with
    | none => none
    | some (t, deck) =>
      match t.deal_player_cards_collect_ante deck with
      | none => none
      | some t =>
        match t.find_next_deal_button_index_and_update_current_player with
        | none => none
        | some t =>
          if Int.tmod t.hand_number t.ante_round_increase = 0 then
            some { t with ante := t.ante + ANTE_INCREASE_AMOUNT }
          else some t

/-- `Table::new`: at most 23 players, ids 0..N-1, dealer at seat N-1,
then an immediate deal.  N = 0 panics on the usize underflow of
`number_of_players - 1`. -/
def Table.new (number_of_players : Nat) (deck : List Card) : Option Table :=
  if number_of_players > 23 then none
  else if number_of_players = 0 then none
  else
    let t : Table :=
      { players := (List.range number_of_players).map fun i => Player.new i
        flop := none
        turn := none
        river := none
        dealer_button_index := number_of_players - 1
        ante := 1
        hand_number := 0
        current_player_index := number_of_players - 1
        table_state := .PreFlop
        player_bets := List.replicate number_of_players 0
        ante_round_increase := number_of_players * 2
        round_actions := []
        previous_round_actions := [] }
    t.deal deck

/-- Append one entry to the round action log. -/
def Table.pushAction (t : Table) (a : TableAction) : Table :=
  { t with round_actions := t.round_actions ++ [a] }

/-- Replace the current player (by index) after a mutation through
`get_current_player_mut`. -/
def Table.setCurrent (t : Table) (p : Player) : Option Table :=
  match listSetNat t.players t.current_player_index p with
  | none => none
  | some ps => some { t with players := ps }

/-- `*self.player_bets.get_mut(index).unwrap() += bet_amount` where
`index` is the current player's i8 id `as usize`. -/
def Table.addToPlayerBets (t : Table) (id amt : Int) : Option Table :=
  match intIdxGet t.player_bets id with
  | none => none
  | some b =>
    match intIdxSet t.player_bets id (b + amt) with
    | none => none
    | some bs => some { t with player_bets := bs }

/-- `Table::take_provided_action`: dispatch on the action, with the
pot-limit clamp on Raise and the check-into-a-bet fold penalty. -/
def Table.take_provided_action (t : Table) (hand_action : HandAction)
    (active_state : ActiveState) : Option Table :=
  match t.get_largest_active_bet with
  | none => none
  | some largest =>
    let difference := largest - active_state.current_bet
    match hand_action with
    | .Fold =>
      match t.get_current_player with
      | none => none
      | some p =>
        match p.fold with
        | none => none
        | some p2 =>
          match t.setCurrent p2 with
          | none => none
          | some t2 =>
            some (t2.pushAction (.TakePlayerAction p2.id .Fold))
    | .Check =>
      if difference = 0 then
        match t.get_current_player with
        | none => none
        | some p =>
          match p.bet 0 with
          | none => none
          | some (p2, _) =>
            match t.setCurrent p2 with
            | none => none
            | some t2 =>
              some (t2.pushAction (.TakePlayerAction p2.id .Check))
      else
        match t.get_current_player with
        | none => none
        | some p =>
          match p.fold with
          | none => none
          | some p2 =>
            match t.setCurrent p2 with
            | none => none
            | some t2 =>
              some (t2.pushAction (.TakePlayerAction p2.id .Fold))
    | .Call =>
      match t.get_current_player with
      | none => none
      | some p =>
        match p.bet difference with
        | none => none
        | some (p2, bet_amount) =>
          match t.setCurrent p2 with
          | none => none
          | some t2 =>
            match t2.addToPlayerBets p2.id bet_amount with
            | none => none
            | some t3 =>
              some (t3.pushAction (.TakePlayerAction p2.id .Call))
    | .Raise raise_amount =>
      let acceptable_bet :=
        min (raise_amount + difference) (t.get_pot_size + difference)
      match t.get_current_player with
      | none => none
      | some p =>
        match p.bet acceptable_bet with
        | none => none
        | some (p2, bet_amount) =>
          match t.setCurrent p2 with
          | none => none
          | some t2 =>
            match t2.addToPlayerBets p2.id bet_amount with
            | none => none
            | some t3 =>
              some (t3.pushAction (.TakePlayerAction p2.id (.Raise bet_amount)))

/-- One pass of the round-closure loop in `Table::take_action`: log the
stage advance, move to the next stage, reset the current player to the
dealer button, and clear everyone's turn flag. -/
def Table.advanceStageStep (t : Table) : Table :=
  let t :=
    match t.table_state with
    | .PreFlop => t.pushAction .AdvanceToFlop
    | .Flop => t.pushAction .AdvanceToTurn
    | _ => t.pushAction .AdvanceToRiver
  { t with
    table_state := t.table_state.next_stage
    current_player_index := t.dealer_button_index
    players := t.players.map fun p => { p with has_had_turn_this_round := false } }

/-! ## Showdown and side-pot allocation (src/table/mod.rs) -/

/-- `Table::compare_players`: folded players compare equal to each other
and above actives; two actives compare by evaluating the shared cards
extended with each hand, reversed (`b.cmp(&a)`) so stronger hands sort
first. -/
def compare_players (ev : List Card → Int) (shared_cards : List Card)
    (player1 player2 : Player) : Ordering :=
  if !player1.player_state.is_active && !player2.player_state.is_active then .eq
  else if !player1.player_state.is_active then .gt
  else if !player2.player_state.is_active then .lt
  else
    let a_set := shared_cards ++
      (match player1.player_state with
       | .Active a => [a.hand.1, a.hand.2]
       | .Folded => [])
    let b_set := shared_cards ++
      (match player2.player_state with
       | .Active b => [b.hand.1, b.hand.2]
       | .Folded => [])
    ordCompareInt (ev b_set) (ev a_set)

/-- `Table::compare_players_by_bet_amount`. -/
def compare_players_by_bet_amount (player1 player2 : Player) : Ordering :=
  match player1.player_state, player2.player_state with
  | .Folded, .Folded => ordCompareInt player1.id player2.id
  | .Active _, .Folded => .gt
  | .Folded, .Active _ => .lt
  | .Active one, .Active two => ordCompareInt one.current_bet two.current_bet

/-- Grouping loop of `Table::get_hand_result`: walk the sorted players
and open a new equivalence class whenever a player compares strictly
greater (worse) than the head of the current class. -/
def groupGo (ev : List Card → Int) (shared : List Card)
    (acc : List (List Player)) (cur : List Player) (curHead : Player) :
    List Player → List (List Player)
  | [] => acc ++ [cur]
  | p :: ps =>
    if compare_players ev shared p curHead = .gt then
      groupGo ev shared (acc ++ [cur]) [p] p ps
    else
      groupGo ev shared acc (cur ++ [p]) curHead ps

/-- `Table::get_hand_result`: sort all players by hand strength
(best first) and group them into equivalence classes. -/
def Table.get_hand_result (ev : List Card → Int) (t : Table) :
    Option (List (List Player)) :=
  match t.flop, t.turn, t.river with
  | some (f1, f2, f3), some tu, some rv =>
    let total_hand := [f1, f2, f3, tu, rv]
    match sortByCmp (compare_players ev total_hand) t.players with
    | [] => none
    | p0 :: rest => some (groupGo ev total_hand [] [p0] p0 rest)
  | _, _, _ => none

/-- The bet collection of `Table::get_bet_increases_amount`: the
current_bet of every player, panicking (none) on a folded one. -/
def collectActiveBets : List Player → Option (List Int)
  | [] => some []
  | p :: ps =>
    match p.player_state with
    | .Folded => none
    | .Active a => (collectActiveBets ps).map (a.current_bet :: ·)

/-- Negation of `bets.windows(2).any(|w| w[0] > w[1])`. -/
def sortedNondec : List Int → Bool
  | [] => true
  | [_] => true
  | a :: b :: rest => a ≤ b && sortedNondec (b :: rest)

/-- The running-difference loop of `Table::get_bet_increases_amount`. -/
def diffsFrom (prev_bet : Int) : List Int → List Int
  | [] => []
  | b :: bs => (b - prev_bet) :: diffsFrom b bs

/-- `Table::get_bet_increases_amount`: differences between consecutive
sorted bets; panics (none) on a folded player or an unsorted input. -/
def get_bet_increases_amount (players : List Player) : Option (List Int) :=
  match collectActiveBets players with
  | none => none
  | some bets =>
    if sortedNondec bets then some (diffsFrom 0 bets) else none

/-- `self.players.iter_mut().find(|x| x.get_id() == winning_id)
.unwrap().total_money += amt`: add to the first player with the given
id, none when absent. -/
def updateAddMoney : List Player → Int → Int → Option (List Player)
  | [], _, _ => none
  | p :: ps, id, amt =>
    if p.id = id then some ({ p with total_money := p.total_money + amt } :: ps)
    else (updateAddMoney ps id amt).map (p :: ·)

/-- The payout loop over one tier's winners in `Table::resolve_hand`:
`for (j, player) in list_of_players.iter().enumerate().skip(i)` pays
each winner the even share plus one chip when its absolute position j in
the bet-sorted class satisfies `(j as i32) < remainder`. -/
def payWinnersFrom (players : List Player) :
    List Player → Nat → Int → Int → Option (List Player)
  | [], _, _, _ => some players
  | w :: ws, j, pay, rem =>
    match updateAddMoney players w.id
        (pay + if (j : Int) < rem then 1 else 0) with
    | none => none
    | some players2 => payWinnersFrom players2 ws (j + 1) pay rem

/-- The bet collection of one tier: take `min(bet_amount, bet)` out of
every pot entry and total it. -/
def collectTier (d : Int) : List Int → List Int × Int
  | [] => ([], 0)
  | b :: bs =>
    let side_pot_amount := min d b
    let (bs2, rest) := collectTier d bs
    ((b - side_pot_amount) :: bs2, side_pot_amount + rest)

/-- The tier loop of `Table::resolve_hand` for one winning class:
iterate bet increments, stopping when the pot is empty; divide each
tier's total by the running `player_size` with Rust's truncating `/`
and `%`. -/
def payTiers (winners : List Player) :
    Nat → List Int → Int → List Int → List Player →
    Option (List Int × List Player)
  | _, [], _, bets, players => some (bets, players)
  | i, d :: ds, player_size, bets, players =>
    if sumList bets = 0 then some (bets, players)
    else
      let (bets2, total) := collectTier d bets
      let each_player_payout := Int.tdiv total player_size
      let remainder := Int.tmod total player_size
      match payWinnersFrom players (winners.drop i) i
          each_player_payout remainder with
      | none => none
      | some players2 =>
        payTiers winners (i + 1) ds (player_size - 1) bets2 players2

/-- The per-class body of the payout loop in `Table::resolve_hand`:
sort the class by bet, filter to actives, build the increments, then
run the tiers. -/
def payOneClass (bets : List Int) (players : List Player)
    (cls : List Player) : Option (List Int × List Player) :=
  let sorted := sortByCmp compare_players_by_bet_amount cls
  let filtered := sorted.filter fun p => p.player_state.is_active
  let player_size := (filtered.length : Int)
  match get_bet_increases_amount filtered with
  | none => none
  | some bet_amounts => payTiers filtered 0 bet_amounts player_size bets players

/-- The outer class loop of the payout in `Table::resolve_hand`. -/
def payAllClasses (bets : List Int) (players : List Player) :
    List (List Player) → Option (List Int × List Player)
  | [] => some (bets, players)
  | cls :: rest =>
    match payOneClass bets players cls with
    | none => none
    | some (bets2, players2) => payAllClasses bets2 players2 rest

/-- The single-remaining-player payout of `Table::resolve_hand`:
`iter_mut().find(active).unwrap().total_money += pot`; also returns the
winner's id for the log string. -/
def giveFirstActivePot : List Player → Int → Option (List Player × Int)
  | [], _ => none
  | p :: ps, pot =>
    match p.player_state with
    | .Active _ =>
      some ({ p with total_money := p.total_money + pot } :: ps, p.id)
    | .Folded => (giveFirstActivePot ps pot).map fun x => (p :: x.1, x.2)

/-- `Table::make_comparison_header`. -/
def Table.make_comparison_header (t : Table) : String :=
  let flop_string :=
    match t.flop with
    | none => "None"
    | some (c1, c2, c3) =>
      c1.displayString ++ " " ++ c2.displayString ++ " " ++ c3.displayString
  let turn_string :=
    match t.turn with
    | none => "None"
    | some c => c.displayString
  let river_string :=
    match t.river with
    | none => "None"
    | some c => c.displayString
  "\nPlayers hands had to be compared.\nFlop: " ++ flop_string ++
    "\nTurn: " ++ turn_string ++ "\nRiver: " ++ river_string ++
    "\nThe hands are ranked as follows: \n"

/-- One class of the hand-reveal report in `Table::resolve_hand`. -/
def rankLinesClass (rank : Nat) : List Player → String
  | [] => ""
  | p :: ps =>
    (match p.player_state with
     | .Active state =>
       "Player " ++ toString p.id ++ " ranked " ++ toString rank ++
         " with hand " ++ state.hand.1.displayString ++ " " ++
         state.hand.2.displayString ++ "\n"
     | .Folded => "") ++ rankLinesClass rank ps

/-- The hand-reveal report: class at position index gets rank index+1. -/
def rankLines (index : Nat) : List (List Player) → String
  | [] => ""
  | cls :: rest => rankLinesClass (index + 1) cls ++ rankLines (index + 1) rest

/-- `Table::resolve_hand`: pay the uncontested winner, or run the
showdown allocation over the ranked classes; then log `EvaluateHand`
and deal the next hand from the given deck. -/
def Table.resolve_hand (ev : List Card → Int) (t : Table) (deck : List Card) :
    Option Table :=
  let result_string := "The hand resolved because: "
  match t.get_active_player_count with
  | none => none
  | some c =>
    if c = 1 then
      match giveFirstActivePot t.players t.get_pot_size with
      | none => none
      | some (ps2, winner_id) =>
        let rs := result_string ++
          "The following player won because everyone else folded: " ++
          toString winner_id
        (({ t with players := ps2 : Table }).pushAction (.EvaluateHand rs)).deal deck
    else
      let header := t.make_comparison_header
      match t.get_hand_result ev with
      | none => none
      | some sorted_players =>
        let rs := result_string ++ header ++ rankLines 0 sorted_players
        match payAllClasses t.player_bets t.players sorted_players with
        | none => none
        | some (bets2, players2) =>
          (({ t with players := players2, player_bets := bets2 : Table
             }).pushAction (.EvaluateHand rs)).deal deck

/-- The round-closure `while` loop of `Table::take_action` together
with the trailing `update_current_player_index_to_next_active`.  The
loop advances the stage at most three times before hitting River, so
fuel 4 makes the recursion total without changing its meaning. -/
def Table.bettingLoop (ev : List Card → Int) (deck : List Card) :
    Nat → Table → Option Table
  | 0, _ => none
  | fuel + 1, t =>
    match t.is_betting_over, t.is_game_over with
    | some bo, some go =>
      if bo && !go then
        if t.table_state = .River then t.resolve_hand ev deck
        else Table.bettingLoop ev deck fuel t.advanceStageStep
      else t.update_current_player_index_to_next_active
    | _, _ => none

/-- `Table::take_action`: no-op when the game is over; panic (none) on
an inactive current player; otherwise dispatch the action, resolve when
one active player remains, and run the round-closure loop. -/
def Table.take_action (ev : List Card → Int) (t : Table)
    (hand_action : HandAction) (deck : List Card) : Option Table :=
  match t.is_game_over with
  | none => none
  | some true => some t
  | some false =>
    match t.get_current_player with
    | none => none
    | some p =>
      match p.player_state with
      | .Folded => none
      | .Active active =>
        match t.take_provided_action hand_action active with
        | none => none
        | some t1 =>
          match t1.get_active_player_count with
          | none => none
          | some c =>
            if c = 1 then t1.resolve_hand ev deck
            else t1.bettingLoop ev deck 4

/-! ## View projection and results (src/table/mod.rs) -/

/-- `Table::get_flop_string_secret`. -/
def Table.get_flop_string_secret (t : Table) : JValue :=
  match t.flop with
  | none => .jarr [.jstr "None"]
  | some (c1, c2, c3) =>
    match t.table_state with
    | .PreFlop => .jarr [.jstr "Hidden"]
    | _ => .jarr [.jstr c1.toAsciiString, .jstr c2.toAsciiString,
                   .jstr c3.toAsciiString]

/-- `Table::get_turn_string_secret`. -/
def Table.get_turn_string_secret (t : Table) : JValue :=
  match t.turn with
  | none => .jstr "None"
  | some card =>
    match t.table_state with
    | .PreFlop => .jstr "Hidden"
    | .Flop => .jstr "Hidden"
    | _ => .jstr card.toAsciiString

/-- `Table::get_river_string_secret`. -/
def Table.get_river_string_secret (t : Table) : JValue :=
  match t.river with
  | none => .jstr "None"
  | some card =>
    match t.table_state with
    | .River => .jstr card.toAsciiString
    | _ => .jstr "Hidden"

/-- `Table::get_vec_of_strings_from_actions`. -/
def Table.get_vec_of_strings_from_actions (actions : List TableAction) :
    List String :=
  actions.map TableAction.displayString

/-- `Table::get_table_state_json_for_player`: the per-seat view.  Note
that the source reads `current_bet` and `cards` from
`self.get_current_player()`, not from the player with the given id; the
id parameter only fills the `id` field. -/
def Table.get_table_state_json_for_player (t : Table) (id : Int) :
    Option JValue :=
  match t.get_current_player, t.get_largest_active_bet with
  | some cur, some largest =>
    some (.jobj
      [("id", .jint id),
       ("current_bet", .jint cur.player_state.get_bet),
       ("cards", cur.player_state.get_cards_json),
       ("hand_number", .jint t.hand_number),
       ("current_highest_bet", .jint largest),
       ("flop", t.get_flop_string_secret),
       ("turn", t.get_turn_string_secret),
       ("river", t.get_river_string_secret),
       ("dealer_button_index", .jint t.dealer_button_index),
       ("players", .jarr (t.players.map Player.as_json_no_secret_data)),
       ("actions",
        .jarr ((Table.get_vec_of_strings_from_actions t.round_actions).map .jstr)),
       ("previous_actions",
        .jarr ((Table.get_vec_of_strings_from_actions
          t.previous_round_actions).map .jstr))])
  | _, _ => none

/-- `Table::get_state_json_for_current_player`. -/
def Table.get_state_json_for_current_player (t : Table) : Option JValue :=
  t.get_table_state_json_for_player (t.current_player_index : Int)

/-- The ranking loop of `Table::get_results`: players are sorted by
`|a, b| b.cmp(a)` (best first); the printed rank restarts at position
index + 2 whenever a player is not `PartialEq`-equal (equal
death_hand_number) to its predecessor.  The source renders each pair as
a text line of rank, death round and player JSON; the line formatting
is elided here and the (rank, player) pairs it is printed from are kept. -/
def rankGo (prev : Player) (i : Nat) (rank : Nat) :
    List Player → List (Nat × Player)
  | [] => []
  | p :: ps =>
    let r := if !playerEq p prev then i + 2 else rank
    (r, p) :: rankGo p (i + 1) r ps

/-- `Table::get_results`, as the list of (printed rank, player) pairs in
print order; indexing `players_copy[0]` panics (none) on no players. -/
def Table.get_results_ranked (t : Table) : Option (List (Nat × Player)) :=
  match sortByCmp (fun a b => playerCmp b a) t.players with
  | [] => none
  | p0 :: rest => some ((1, p0) :: rankGo p0 0 1 rest)

/-! ## Derived quantities and concrete fixtures used by the theorems -/

/-- Total chips still in the players' stacks. -/
def sumMoney (ps : List Player) : Int :=
  sumList (ps.map (·.total_money))

/-- Stack of the first player carrying the given id (the same lookup
discipline as `iter_mut().find(|x| x.get_id() == id)`). -/
def getMoneyById (players : List Player) (id : Int) : Option Int :=
  (players.find? fun p => p.id == id).map (·.total_money)

/-- An evaluator giving every 7-card hand the same strength, the extreme
case of ties (a board that plays for everyone). -/
def evConst : List Card → Int := fun _ => 0

/-- The n-th card of a fixed enumeration of the 52-card deck. -/
def cardAt (n : Nat) : Card := ⟨2 + n % 13, n / 13⟩

/-- An 11-card deck, enough for a 3-player deal. -/
def deckA : List Card := (List.range 11).map cardAt

/-- A 15-card deck for the re-deal after a 4-player showdown. -/
def deckB : List Card := (List.range 15).map fun n => cardAt (11 + n)

/-- Showdown fixture, seat 0: all-in for 1 (the ante was its last chip). -/
def pA : Player :=
  { player_state := .Active { hand := (cardAt 26, cardAt 27), current_bet := 1 }
    total_money := 0
    death_hand_number := none
    id := 0
    has_had_turn_this_round := true }

/-- Showdown fixture, seat 1: bet 2, stack 10. -/
def pB : Player :=
  { pA with id := 1, total_money := 10
            player_state := .Active { hand := (cardAt 28, cardAt 29), current_bet := 2 } }

/-- Showdown fixture, seat 2: bet 2, stack 10. -/
def pC : Player :=
  { pA with id := 2, total_money := 10
            player_state := .Active { hand := (cardAt 30, cardAt 31), current_bet := 2 } }

/-- Showdown fixture, seat 3: folded after contributing 2. -/
def pD : Player :=
  { player_state := .Folded
    total_money := 8
    death_hand_number := none
    id := 3
    has_had_turn_this_round := true }

/-- A River table about to show down: seats 0, 1, 2 still active with
bets 1, 2, 2 (seat 0 is all-in for less), seat 3 folded with 2 in the
pot; under `evConst` the three active hands tie. -/
def tShowdown : Table :=
  { players := [pA, pB, pC, pD]
    flop := some (cardAt 0, cardAt 1, cardAt 2)
    turn := some (cardAt 3)
    river := some (cardAt 4)
    dealer_button_index := 3
    ante := 1
    hand_number := 1
    current_player_index := 1
    table_state := .River
    player_bets := [1, 2, 2, 2]
    ante_round_increase := 8
    round_actions := []
    previous_round_actions := [] }

/-! ## Helper lemmas -/

theorem get?_set_self (l : List α) (n : Nat) (x : α) (h : n < l.length) :
    (l.set n x).get? n = some x := by
  induction l generalizing n with
  | nil => simp at h
  | cons a as ih =>
    cases n with
    | zero => rfl
    | succ m => simpa using ih m (by simpa using h)

theorem get?_lt_length {l : List α} {n : Nat} {x : α}
    (h : l.get? n = some x) : n < l.length := by
  by_contra hn
  rw [List.get?_eq_none.mpr (Nat.le_of_not_lt hn)] at h
  exact Option.noConfusion h

/-- `sortInsert` permutes its input with the new element in front. -/
theorem sortInsert_perm (cmp : α → α → Ordering) (x : α) :
    ∀ l : List α, (sortInsert cmp x l).Perm (x :: l) := by
  intro l
  induction l with
  | nil => simp [sortInsert]
  | cons y ys ih =>
    by_cases h : cmp y x = .lt
    · simp only [sortInsert, h, if_pos]
      exact ((ih.cons y).trans (List.Perm.swap x y ys))
    · simp [sortInsert, h]

/-- `sortByCmp` permutes its input. -/
theorem sortByCmp_perm (cmp : α → α → Ordering) :
    ∀ l : List α, (sortByCmp cmp l).Perm l := by
  intro l
  induction l with
  | nil => simp [sortByCmp]
  | cons y ys ih =>
    exact (sortInsert_perm cmp y (sortByCmp cmp ys)).trans (ih.cons y)

/-- Inserting into a list sorted by a swap-consistent comparator keeps
it sorted (adjacent pairs never compare `.gt`). -/
theorem sortInsert_chain (cmp : α → α → Ordering)
    (hswap : ∀ a b, cmp a b = .gt → cmp b a = .lt) (x : α) :
    ∀ l : List α, List.Chain' (fun a b => cmp a b ≠ .gt) l →
      List.Chain' (fun a b => cmp a b ≠ .gt) (sortInsert cmp x l) := by
  intro l
  induction l with
  | nil => intro _; simp [sortInsert]
  | cons y ys ih =>
    intro hc
    have hys : List.Chain' (fun a b => cmp a b ≠ .gt) ys := hc.tail
    by_cases h : cmp y x = .lt
    · simp only [sortInsert, h, if_pos]
      have htail := ih hys
      cases ys with
      | nil =>
        simp only [sortInsert]
        exact List.chain'_pair.mpr (by simp [h])
      | cons z zs =>
        by_cases hz : cmp z x = .lt
        · have hzz : sortInsert cmp x (z :: zs) = z :: sortInsert cmp x zs := by
            simp [sortInsert, hz]
          rw [hzz]
          rw [hzz] at htail
          exact List.Chain'.cons (List.chain'_cons.mp hc).1 htail
        · have : sortInsert cmp x (z :: zs) = x :: z :: zs := by
            simp [sortInsert, hz]
          rw [this]
          rw [this] at htail
          exact List.Chain'.cons (by simp [h]) htail
    · simp only [sortInsert, h, if_neg, ite_false]
      refine List.Chain'.cons ?_ hc
      intro hxy
      exact h (hswap x y hxy)

/-- A comparator-descending stable sort is sorted: adjacent pairs never
compare `.gt`. -/
theorem sortByCmp_chain (cmp : α → α → Ordering)
    (hswap : ∀ a b, cmp a b = .gt → cmp b a = .lt) :
    ∀ l : List α, List.Chain' (fun a b => cmp a b ≠ .gt) (sortByCmp cmp l) := by
  intro l
  induction l with
  | nil => simp [sortByCmp]
  | cons y ys ih => exact sortInsert_chain cmp hswap y _ ih

/-! ## C7, C8: the action codec -/

/-- The Raise payload is an i32 in the source; emitting it puts that
i32 on the wire. -/
def raiseInRange : HandAction → Prop
  | .Raise n => -(2 ^ 31) ≤ n ∧ n < 2 ^ 31
  | _ => True

/-- C7: Action codec round-trip: for every HandAction a (Fold, Check,
Call, and Raise(n) for every i32 n), parsing the emitted JSON wire form
returns Ok(a). -/
theorem hand_action_parse_round_trip (a : HandAction) (h : raiseInRange a) :
    parse_hand_action (some a.display_json) = .ok a := by
  cases a with
  | Fold => rfl
  | Check => rfl
  | Call => rfl
  | Raise n =>
    obtain ⟨h1, h2⟩ := h
    have hwrap : wrapI32 n = n := by unfold wrapI32; omega
    have hr : ((-(2 ^ 63) : Int) ≤ n ∧ n < 2 ^ 63) := by omega
    have hstep : parse_hand_action (some (HandAction.Raise n).display_json) =
        match JValue.as_i64 (.jint n) with
        | some amount => .ok (.Raise (wrapI32 amount))
        | none => .error "Invalid amount" := rfl
    rw [hstep]
    simp only [JValue.as_i64, if_pos hr, hwrap]

/-- Witness for C7 at the concrete i32 amount 50. -/
theorem hand_action_parse_round_trip_witness :
    raiseInRange (.Raise 50) ∧
      parse_hand_action (some (HandAction.Raise 50).display_json) = .ok (.Raise 50) :=
  ⟨by constructor <;> norm_num [raiseInRange], hand_action_parse_round_trip (.Raise 50) (by constructor <;> norm_num [raiseInRange])⟩

/-- C8: Parser error behaviour: the tag is case-insensitive; a raise
whose amount is missing, a quoted string such as "2e3", or a
float-typed (scientific notation) number is an error; a well-formed
raise parses; unknown tags and malformed JSON are errors; and every
outcome is an error value, never an exception. -/
theorem parser_error_behaviour :
    parse_hand_action (some (.jobj [("action", .jstr "FOLD")])) = .ok .Fold ∧
    parse_hand_action (some (.jobj [("action", .jstr "raise"),
      ("amount", .jstr "2e3")])) = .error "Invalid amount" ∧
    parse_hand_action (some (.jobj [("action", .jstr "raise"),
      ("amount", .jfloat)])) = .error "Invalid amount" ∧
    parse_hand_action (some (.jobj [("action", .jstr "raise")])) =
      .error "Invalid amount" ∧
    parse_hand_action (some (.jobj [("action", .jstr "raise"),
      ("amount", .jint 50)])) = .ok (.Raise 50) ∧
    parse_hand_action (some (.jobj [("action", .jstr "discard")])) =
      .error "Invalid action" ∧
    parse_hand_action none = .error "invalid json" ∧
    (∀ v : JValue,
      toLowerModel ((v.idx "action").as_str.getD "bad") = "raise" →
      (v.idx "amount").as_i64 = none →
      parse_hand_action (some v) = .error "Invalid amount") ∧
    (∀ x : Option JValue,
      (∃ e, parse_hand_action x = .error e) ∨
      (∃ a, parse_hand_action x = .ok a)) := by
  refine ⟨rfl, rfl, rfl, rfl, rfl, rfl, rfl, ?_, ?_⟩
  · intro v htag hamt
    simp only [parse_hand_action, htag, hamt]
    rfl
  · intro x
    cases h : parse_hand_action x with
    | error e => exact .inl ⟨e, rfl⟩
    | ok a => exact .inr ⟨a, rfl⟩

/-- Witness for C8's conditional raise-error rule at the concrete
string-amount input. -/
theorem parser_error_behaviour_witness :
    toLowerModel (((JValue.jobj [("action", .jstr "raise"),
      ("amount", .jstr "2e3")]).idx "action").as_str.getD "bad") = "raise" ∧
    ((JValue.jobj [("action", .jstr "raise"),
      ("amount", .jstr "2e3")]).idx "amount").as_i64 = none ∧
    parse_hand_action (some (.jobj [("action", .jstr "raise"),
      ("amount", .jstr "2e3")])) = .error "Invalid amount" :=
  ⟨rfl, rfl,
    parser_error_behaviour.2.2.2.2.2.2.2.1
      (.jobj [("action", .jstr "raise"), ("amount", .jstr "2e3")]) rfl rfl⟩

/-! ## C1, C2: conservation and the side-pot remainder -/

/-- C1: Money conservation fails on the code: at the reachable showdown
state `tShowdown` (N = 4, total chips 35 = Σ total_money + Σ
player_bets), running `resolve_hand` (showdown allocation followed by
`deal`) leaves only 34 chips in the system — the tier-1 remainder chip
of the tied winning class is subtracted from `player_bets` but paid to
nobody, because the `(j as i32) < remainder` test uses the absolute
position `j ≥ 1` produced by `enumerate().skip(i)`. -/
theorem conservation_fails_on_tiered_tie_showdown :
    sumMoney tShowdown.players + sumList tShowdown.player_bets = 35 ∧
    (tShowdown.resolve_hand evConst deckB).map
      (fun t => sumMoney t.players + sumList t.player_bets) = some 34 ∧
    (tShowdown.resolve_hand evConst deckB).map
      (fun t => t.players.map (·.total_money)) = some [1, 11, 11, 7] := by
  refine ⟨by decide, ?_, ?_⟩ <;> decide

/-- C2: Counterexample to the claimed remainder distribution.  The
winning class [pA, pB, pC] (bets 1, 2, 2) plus folded pD (bet 2) gives
tier 1 a total of 3 chips for the 2 winners at positions 1 and 2:
the claim says the first of those winners (pB) receives the 1-chip
remainder and every chip of the tier is paid out, so pB would end at 13
and the stacks would sum to 35; the code pays the remainder only to
absolute positions j < 1, i.e. to nobody, leaving pB at 12 and only 34
chips in play. -/
theorem side_pot_remainder_counterexample :
    tShowdown.get_hand_result evConst = some [[pA, pB, pC], [pD]] ∧
    (payAllClasses tShowdown.player_bets tShowdown.players
      [[pA, pB, pC], [pD]]).map
      (fun x => (x.1, x.2.map (·.total_money))) =
      some ([0, 0, 0, 0], [2, 12, 12, 8]) ∧
    sumMoney tShowdown.players + sumList tShowdown.player_bets = 35 ∧
    sumList [(2 : Int), 12, 12, 8] + sumList [(0 : Int), 0, 0, 0] = 34 := by
  refine ⟨by decide, by decide, by decide, by decide⟩

theorem updateAddMoney_find_eq :
    ∀ {players : List Player} {id amt : Int} {res : List Player},
      updateAddMoney players id amt = some res →
      res.find? (fun p => p.id == id) =
        (players.find? (fun p => p.id == id)).map
          (fun p => { p with total_money := p.total_money + amt }) := by
  intro players
  induction players with
  | nil => intro id amt res h; simp [updateAddMoney] at h
  | cons p ps ih =>
    intro id amt res h
    by_cases hid : p.id = id
    · simp only [updateAddMoney, if_pos hid, Option.some.injEq] at h
      subst h
      simp [List.find?, hid]
    · simp only [updateAddMoney, if_neg hid] at h
      cases hps : updateAddMoney ps id amt with
      | none => rw [hps] at h; simp at h
      | some res2 =>
        rw [hps] at h
        simp only [Option.map_some', Option.some.injEq] at h
        subst h
        have hbeq : (p.id == id) = false := by simp [hid]
        simp only [List.find?, hbeq]
        exact ih hps

theorem updateAddMoney_find_ne :
    ∀ {players : List Player} {id amt : Int} {res : List Player},
      updateAddMoney players id amt = some res →
      ∀ id2 : Int, id2 ≠ id →
        res.find? (fun p => p.id == id2) = players.find? (fun p => p.id == id2) := by
  intro players
  induction players with
  | nil => intro id amt res h; simp [updateAddMoney] at h
  | cons p ps ih =>
    intro id amt res h id2 hne
    by_cases hid : p.id = id
    · simp only [updateAddMoney, if_pos hid, Option.some.injEq] at h
      subst h
      have hbeq : (p.id == id2) = false := by
        simp only [beq_eq_false_iff_ne]
        rw [hid]
        exact fun hc => hne hc.symm
      simp [List.find?, hbeq]
    · simp only [updateAddMoney, if_neg hid] at h
      cases hps : updateAddMoney ps id amt with
      | none => rw [hps] at h; simp at h
      | some res2 =>
        rw [hps] at h
        simp only [Option.map_some', Option.some.injEq] at h
        subst h
        simp only [List.find?]
        cases hb : (p.id == id2) with
        | true => rfl
        | false => exact ih hps id2 hne

theorem payWinnersFrom_find_notin :
    ∀ (ws : List Player) {players : List Player} {j : Nat} {pay rem : Int}
      {res : List Player},
      payWinnersFrom players ws j pay rem = some res →
      ∀ id2 : Int, id2 ∉ ws.map (·.id) →
        res.find? (fun p => p.id == id2) = players.find? (fun p => p.id == id2) := by
  intro ws
  induction ws with
  | nil =>
    intro players j pay rem res h id2 _
    simp only [payWinnersFrom, Option.some.injEq] at h
    subst h; rfl
  | cons w0 ws ih =>
    intro players j pay rem res h id2 hnot
    simp only [payWinnersFrom] at h
    cases hupd : updateAddMoney players w0.id
        (pay + if (j : Int) < rem then 1 else 0) with
    | none => rw [hupd] at h; simp at h
    | some players2 =>
      rw [hupd] at h
      have hne : id2 ≠ w0.id := by
        intro hc; exact hnot (by simp [hc])
      have hnot2 : id2 ∉ ws.map (·.id) := fun hc => hnot (by simp [hc])
      rw [ih h id2 hnot2]
      exact updateAddMoney_find_ne hupd id2 hne

/-- C2 (amended): In the tier payout loop of `resolve_hand`, the winner
standing at position j₀ + k of the bet-sorted class (the k-th element
of the processed suffix) receives the even share plus one extra chip
exactly when its absolute class position j₀ + k is below the remainder
— positions are counted from the start of the sorted class, not among
the k − i remaining winners, so when the tier index is i ≥ 1 only
max(0, r − i) of the r remainder chips are handed out and the rest of
the tier total is paid to nobody. -/
theorem side_pot_remainder_distribution :
    ∀ (ws players : List Player) (j₀ : Nat) (pay rem : Int) (res : List Player),
      payWinnersFrom players ws j₀ pay rem = some res →
      (ws.map (·.id)).Nodup →
      ∀ (k : Nat) (w : Player), ws.get? k = some w →
        getMoneyById res w.id =
          (getMoneyById players w.id).map
            (· + (pay + if ((j₀ + k : Nat) : Int) < rem then 1 else 0)) := by
  intro ws
  induction ws with
  | nil => intro players j₀ pay rem res h hnd k w hk; simp at hk
  | cons w0 ws ih =>
    intro players j₀ pay rem res h hnd k w hk
    simp only [payWinnersFrom] at h
    cases hupd : updateAddMoney players w0.id
        (pay + if (j₀ : Int) < rem then 1 else 0) with
    | none => rw [hupd] at h; simp at h
    | some players2 =>
      rw [hupd] at h
      cases k with
      | zero =>
        have hw : w0 = w := by simpa using hk
        subst hw
        have hcons : (∀ x ∈ ws, ¬x.id = w0.id) ∧
            (ws.map (fun x => x.id)).Nodup := by simpa using hnd
        have hnotin : w0.id ∉ ws.map (·.id) := by
          intro hin
          obtain ⟨x, hx, hxid⟩ := List.mem_map.mp hin
          exact hcons.1 x hx hxid
        have h1 := payWinnersFrom_find_notin ws h w0.id hnotin
        have h2 := updateAddMoney_find_eq hupd
        unfold getMoneyById
        rw [h1, h2]
        cases players.find? (fun p => p.id == w0.id) with
        | none => simp
        | some p0 => simp
      | succ k =>
        have hk2 : ws.get? k = some w := by simpa using hk
        have hcons : (∀ x ∈ ws, ¬x.id = w0.id) ∧
            (ws.map (fun x => x.id)).Nodup := by simpa using hnd
        have hnd2 : (ws.map (·.id)).Nodup := hcons.2
        have hmem : w ∈ ws := by
          have := List.get?_eq_some.mp hk2
          obtain ⟨hlt, hget⟩ := this
          exact hget ▸ List.get_mem ws k hlt
        have hne : w.id ≠ w0.id := fun hc => hcons.1 w hmem hc
        have ihh := ih players2 (j₀ + 1) pay rem res h hnd2 k w hk2
        have hpres := updateAddMoney_find_ne hupd w.id hne
        unfold getMoneyById at ihh ⊢
        rw [hpres] at ihh
        have harith : (j₀ + 1 + k : Nat) = (j₀ + (k + 1) : Nat) := by omega
        rw [harith] at ihh
        exact ihh

/-- Witness for the amended C2 at the concrete tier 1 of the
counterexample class: pay 1, remainder 1, winners pB, pC at positions
1 and 2, so no winner position is below the remainder and pB gains
only the even share. -/
theorem side_pot_remainder_distribution_witness :
    payWinnersFrom [pA, pB, pC, pD] [pB, pC] 1 1 1 =
      some [pA, { pB with total_money := 11 },
            { pC with total_money := 11 }, pD] ∧
    (([pB, pC].map (·.id)).Nodup) ∧
    [pB, pC].get? 0 = some pB ∧
    getMoneyById [pA, { pB with total_money := 11 },
        { pC with total_money := 11 }, pD] pB.id =
      (getMoneyById [pA, pB, pC, pD] pB.id).map
        (· + (1 + if ((1 + 0 : Nat) : Int) < 1 then 1 else 0)) :=
  ⟨by decide, by decide, by decide,
    side_pot_remainder_distribution [pB, pC] [pA, pB, pC, pD] 1 1 1
      [pA, { pB with total_money := 11 }, { pC with total_money := 11 }, pD]
      (by decide) (by decide) 0 pB (by decide)⟩

/-! ## C3, C4, C10: take_provided_action -/

theorem bet_active {p : Player} {a : ActiveState}
    (hst : p.player_state = .Active a) (amt : Int) :
    p.bet amt =
      if amt ≥ p.total_money then
        some ({ p with has_had_turn_this_round := true
                       player_state := .Active
                         { a with current_bet := a.current_bet + p.total_money }
                       total_money := p.total_money - p.total_money },
              p.total_money)
      else
        some ({ p with has_had_turn_this_round := true
                       player_state := .Active
                         { a with current_bet := a.current_bet + amt }
                       total_money := p.total_money - amt },
              amt) := by
  obtain ⟨ps, tm, dh, pid, turn⟩ := p
  simp only at hst
  subst hst
  rfl

theorem fold_active {p : Player} {a : ActiveState}
    (hst : p.player_state = .Active a) :
    p.fold = some { p with has_had_turn_this_round := true
                           player_state := .Folded } := by
  obtain ⟨ps, tm, dh, pid, turn⟩ := p
  simp only at hst
  subst hst
  rfl

theorem intIdxGet_bounds {l : List Int} {i b : Int}
    (h : intIdxGet l i = some b) : ¬i < 0 ∧ i.toNat < l.length := by
  unfold intIdxGet at h
  by_cases hi : i < 0
  · rw [if_pos hi] at h; exact absurd h (by simp)
  · exact ⟨hi, get?_lt_length (by rwa [if_neg hi] at h)⟩

theorem intIdxGet_after_set {l : List Int} {i b : Int}
    (h : intIdxGet l i = some b) (x : Int) :
    intIdxGet (l.set i.toNat x) i = some x := by
  obtain ⟨hneg, hlt⟩ := intIdxGet_bounds h
  unfold intIdxGet
  rw [if_neg hneg]
  exact get?_set_self l i.toNat x hlt

theorem intIdxSet_of_get {l : List Int} {i b : Int}
    (h : intIdxGet l i = some b) (x : Int) :
    intIdxSet l i x = some (l.set i.toNat x) := by
  obtain ⟨hneg, hlt⟩ := intIdxGet_bounds h
  unfold intIdxSet
  rw [if_neg hneg, if_pos hlt]

theorem setCurrent_of_get {t : Table} {p : Player}
    (h : t.get_current_player = some p) (q : Player) :
    t.setCurrent q =
      some { t with players := t.players.set t.current_player_index q } := by
  have hlt : t.current_player_index < t.players.length :=
    get?_lt_length (l := t.players) h
  unfold Table.setCurrent listSetNat
  rw [if_pos hlt]

theorem addToPlayerBets_of_get {t : Table} {id b : Int}
    (h : intIdxGet t.player_bets id = some b) (amt : Int) :
    t.addToPlayerBets id amt =
      some { t with player_bets := t.player_bets.set id.toNat (b + amt) } := by
  simp only [Table.addToPlayerBets, h, intIdxSet_of_get h (b + amt)]

/-- C3: Pot-limit raise clamp.  First, generally: whenever
`take_provided_action` processes Raise(r) with r ≥ 0 on the active
current player, the amount paid — added to both the seat's player_bets
entry and its current_bet — is at most pot_size_before + diff.  Second,
concretely (scenario S6): with N = 3 on hand 1 (three antes of 1, diff
0), the first actor (seat 1) raising 10000000 pays exactly 3, leaving
player_bets [1, 4, 1], stacks [499, 496, 499] and current highest bet
4. -/
theorem pot_limit_raise_clamp :
    (∀ (t : Table) (active : ActiveState) (r largest : Int) (p : Player)
        (b : Int),
      t.get_largest_active_bet = some largest →
      t.get_current_player = some p →
      p.player_state = .Active active →
      intIdxGet t.player_bets p.id = some b →
      0 ≤ r →
      ∃ paid t2,
        t.take_provided_action (.Raise r) active = some t2 ∧
        paid ≤ t.get_pot_size + (largest - active.current_bet) ∧
        intIdxGet t2.player_bets p.id = some (b + paid) ∧
        (t2.players.get? t.current_player_index).map
            (fun q => q.player_state.get_bet) =
          some (active.current_bet + paid)) ∧
    ((Table.new 3 deckA).map (·.current_player_index) = some 1 ∧
     ((Table.new 3 deckA).bind fun t0 =>
        t0.take_action evConst (.Raise 10000000) deckA).map
        (fun t => (t.player_bets, t.get_largest_active_bet,
                   t.players.map (·.total_money))) =
        some ([1, 4, 1], some 4, [499, 496, 499])) := by
  constructor
  · intro t active r largest p b hlargest hcur hstate hbets hr
    have hlt : t.current_player_index < t.players.length :=
      get?_lt_length (l := t.players) hcur
    have hbet := bet_active hstate
    simp only [Table.take_provided_action, hlargest, hcur, hbet]
    set difference := largest - active.current_bet with hdiff
    set acceptable := min (r + difference) (t.get_pot_size + difference)
      with hacc
    by_cases hif : acceptable ≥ p.total_money
    · rw [if_pos hif]
      simp only [setCurrent_of_get hcur, Table.pushAction]
      rw [addToPlayerBets_of_get (b := b) (by exact hbets)]
      simp only [Table.pushAction]
      refine ⟨p.total_money, _, rfl, ?_, ?_, ?_⟩
      · calc p.total_money ≤ acceptable := hif
          _ ≤ t.get_pot_size + difference := min_le_right _ _
      · exact intIdxGet_after_set hbets _
      · show Option.map _
          ((t.players.set t.current_player_index _).get? t.current_player_index) = _
        rw [get?_set_self _ _ _ hlt]
        rfl
    · rw [if_neg hif]
      simp only [setCurrent_of_get hcur, Table.pushAction]
      rw [addToPlayerBets_of_get (b := b) (by exact hbets)]
      simp only [Table.pushAction]
      refine ⟨acceptable, _, rfl, min_le_right _ _, ?_, ?_⟩
      · exact intIdxGet_after_set hbets _
      · show Option.map _
          ((t.players.set t.current_player_index _).get? t.current_player_index) = _
        rw [get?_set_self _ _ _ hlt]
        rfl
  · exact ⟨by decide, by decide⟩

/-- The active state of fixture pA (bet 1). -/
def activeA : ActiveState := { hand := (cardAt 26, cardAt 27), current_bet := 1 }

/-- The active state of fixture pB (bet 2). -/
def activeB : ActiveState := { hand := (cardAt 28, cardAt 29), current_bet := 2 }

/-- tShowdown with the all-in seat 0 to act (diff 1 > 0). -/
def tShowdownAt0 : Table := { tShowdown with current_player_index := 0 }

/-- Witness for C3's general clamp at tShowdown: seat 1 (bet 2, diff 0)
raises 5 into a pot of 7. -/
theorem pot_limit_raise_clamp_witness :
    tShowdown.get_largest_active_bet = some 2 ∧
    tShowdown.get_current_player = some pB ∧
    pB.player_state = .Active activeB ∧
    intIdxGet tShowdown.player_bets pB.id = some 2 ∧
    (0 : Int) ≤ 5 ∧
    (∃ paid t2,
      tShowdown.take_provided_action (.Raise 5) activeB = some t2 ∧
      paid ≤ tShowdown.get_pot_size + (2 - activeB.current_bet) ∧
      intIdxGet t2.player_bets pB.id = some (2 + paid) ∧
      (t2.players.get? tShowdown.current_player_index).map
        (fun q => q.player_state.get_bet) =
        some (activeB.current_bet + paid)) :=
  ⟨by decide, by decide, by decide, by decide, by decide,
    pot_limit_raise_clamp.1 tShowdown activeB 5 2 pB 2
      (by decide) (by decide) (by decide) (by decide) (by decide)⟩

/-- C4: Check semantics: with the acting player active and
diff = current_highest_bet − current_bet, a Check with diff = 0 calls
bet(0) on that player and logs a Check entry; with diff > 0 the player
is folded instead and the log records Fold, the effective action. -/
theorem check_semantics :
    ∀ (t : Table) (active : ActiveState) (largest : Int) (p : Player),
      t.get_largest_active_bet = some largest →
      t.get_current_player = some p →
      p.player_state = .Active active →
      (largest - active.current_bet = 0 →
        ∃ p2 paid, p.bet 0 = some (p2, paid) ∧
          t.take_provided_action .Check active =
            some (({ t with players := t.players.set t.current_player_index p2
                     : Table }).pushAction (.TakePlayerAction p2.id .Check))) ∧
      (0 < largest - active.current_bet →
        ∃ p2, p.fold = some p2 ∧ p2.player_state = .Folded ∧
          t.take_provided_action .Check active =
            some (({ t with players := t.players.set t.current_player_index p2
                     : Table }).pushAction (.TakePlayerAction p2.id .Fold))) := by
  intro t active largest p hlargest hcur hstate
  constructor
  · intro hdiff
    have hbet := bet_active hstate 0
    by_cases h0 : (0 : Int) ≥ p.total_money
    · rw [if_pos h0] at hbet
      refine ⟨_, _, hbet, ?_⟩
      simp only [Table.take_provided_action, hlargest, hcur, hdiff, hbet,
        setCurrent_of_get hcur, Table.pushAction]
      simp
    · rw [if_neg h0] at hbet
      refine ⟨_, _, hbet, ?_⟩
      simp only [Table.take_provided_action, hlargest, hcur, hdiff, hbet,
        setCurrent_of_get hcur, Table.pushAction]
      simp
  · intro hdiff
    have hne : ¬(largest - active.current_bet = 0) := by omega
    have hf := fold_active hstate
    refine ⟨_, hf, rfl, ?_⟩
    simp only [Table.take_provided_action, hlargest, hcur, hf,
      setCurrent_of_get hcur, Table.pushAction]
    rw [if_neg hne]

/-- Witness for C4's two branches: seat 1 of tShowdown checks with
diff 0; seat 0 (bet 1 below the highest bet 2) tries to check with
diff 1 and is folded. -/
theorem check_semantics_witness :
    (tShowdown.get_largest_active_bet = some 2 ∧
     tShowdown.get_current_player = some pB ∧
     pB.player_state = .Active activeB ∧
     (2 - activeB.current_bet : Int) = 0 ∧
     (∃ p2 paid, pB.bet 0 = some (p2, paid) ∧
        tShowdown.take_provided_action .Check activeB =
          some (({ tShowdown with
                     players := tShowdown.players.set
                       tShowdown.current_player_index p2 : Table
                  }).pushAction (.TakePlayerAction p2.id .Check)))) ∧
    (tShowdownAt0.get_largest_active_bet = some 2 ∧
     tShowdownAt0.get_current_player = some pA ∧
     pA.player_state = .Active activeA ∧
     (0 : Int) < 2 - activeA.current_bet ∧
     (∃ p2, pA.fold = some p2 ∧ p2.player_state = .Folded ∧
        tShowdownAt0.take_provided_action .Check activeA =
          some (({ tShowdownAt0 with
                     players := tShowdownAt0.players.set
                       tShowdownAt0.current_player_index p2 : Table
                  }).pushAction (.TakePlayerAction p2.id .Fold)))) :=
  ⟨⟨by decide, by decide, by decide, by decide,
     (check_semantics tShowdown activeB 2 pB
        (by decide) (by decide) (by decide)).1 (by decide)⟩,
   ⟨by decide, by decide, by decide, by decide,
     (check_semantics tShowdownAt0 activeA 2 pA
        (by decide) (by decide) (by decide)).2 (by decide)⟩⟩

/-- C10: Negative raise amounts pass through unchecked: the wire form
with amount −5 parses to Ok(Raise(−5)), and take_provided_action on
Raise(−5) with diff = 0, a positive stack and a nonnegative pot calls
bet(−5), lowering the seat's current_bet and player_bets entry by 5 and
raising its total_money by 5 — the client withdraws chips from the
pot. -/
theorem negative_raise_passthrough :
    parse_hand_action (some (.jobj [("action", .jstr "raise"),
      ("amount", .jint (-5))])) = .ok (.Raise (-5)) ∧
    ∀ (t : Table) (active : ActiveState) (largest : Int) (p : Player)
      (b : Int),
      t.get_largest_active_bet = some largest →
      t.get_current_player = some p →
      p.player_state = .Active active →
      largest - active.current_bet = 0 →
      0 < p.total_money →
      0 ≤ t.get_pot_size →
      intIdxGet t.player_bets p.id = some b →
      ∃ t2,
        t.take_provided_action (.Raise (-5)) active = some t2 ∧
        (t2.players.get? t.current_player_index).map
          (fun q => (q.player_state.get_bet, q.total_money)) =
          some (active.current_bet - 5, p.total_money + 5) ∧
        intIdxGet t2.player_bets p.id = some (b - 5) := by
  constructor
  · rfl
  · intro t active largest p b hlargest hcur hstate hdiff hmoney hpot hbets
    have hlt : t.current_player_index < t.players.length :=
      get?_lt_length (l := t.players) hcur
    have hbet := bet_active hstate (-5)
    rw [if_neg (by omega)] at hbet
    have hacc : min ((-5 : Int) + (largest - active.current_bet))
        (t.get_pot_size + (largest - active.current_bet)) = -5 := by
      rw [hdiff, min_eq_left (by omega)]
      omega
    simp only [Table.take_provided_action, hlargest, hcur]
    rw [hacc, hbet]
    simp only [setCurrent_of_get hcur, Table.pushAction]
    rw [addToPlayerBets_of_get (b := b) (by exact hbets)]
    simp only [Table.pushAction]
    refine ⟨_, rfl, ?_, ?_⟩
    · show Option.map _
        ((t.players.set t.current_player_index _).get? t.current_player_index) = _
      rw [get?_set_self _ _ _ hlt]
      simp only [Option.map_some', PlayerState.get_bet, Option.some.injEq,
        Prod.mk.injEq]
      constructor <;> omega
    · exact intIdxGet_after_set hbets _

/-- Witness for C10 at tShowdown seat 1 (bet 2, stack 10, pot 7): after
Raise(−5) the seat shows bet −3, stack 15, pot entry −3. -/
theorem negative_raise_passthrough_witness :
    tShowdown.get_largest_active_bet = some 2 ∧
    tShowdown.get_current_player = some pB ∧
    pB.player_state = .Active activeB ∧
    (2 - activeB.current_bet : Int) = 0 ∧
    (0 : Int) < pB.total_money ∧
    (0 : Int) ≤ tShowdown.get_pot_size ∧
    intIdxGet tShowdown.player_bets pB.id = some 2 ∧
    (∃ t2,
      tShowdown.take_provided_action (.Raise (-5)) activeB = some t2 ∧
      (t2.players.get? tShowdown.current_player_index).map
        (fun q => (q.player_state.get_bet, q.total_money)) =
        some (activeB.current_bet - 5, pB.total_money + 5) ∧
      intIdxGet t2.player_bets pB.id = some (2 - 5)) :=
  ⟨by decide, by decide, by decide, by decide, by decide, by decide, by decide,
    negative_raise_passthrough.2 tShowdown activeB 2 pB 2
      (by decide) (by decide) (by decide) (by decide) (by decide) (by decide)
      (by decide)⟩

/-! ## C6: game-over freeze -/

theorem foldl_alive_count (ps : List Player) (x : Int) :
    List.foldl (· + ·) x (ps.map fun p => if p.is_alive then (1 : Int) else 0) =
      x + ((ps.filter fun p => p.is_alive).length : Int) := by
  induction ps generalizing x with
  | nil => simp
  | cons p ps ih =>
    by_cases hp : p.is_alive
    · simp only [List.map_cons, List.foldl_cons, List.filter_cons, hp,
        if_pos, ite_true, List.length_cons, ih]
      push_cast
      ring
    · simp only [List.map_cons, List.foldl_cons, List.filter_cons, hp,
        ite_false, ih, Bool.false_eq_true, if_neg]
      ring

/-- C6: `is_game_over` holds exactly when precisely one player has
`death_hand_number = none`, and once it holds, `take_action` (for every
action) and `deal` return the table unchanged. -/
theorem game_over_freeze :
    ∀ (ev : List Card → Int) (t : Table) (a : HandAction) (deck : List Card),
      (t.is_game_over = some true ↔
        (t.players.filter fun p => p.death_hand_number.isNone).length = 1) ∧
      (t.is_game_over = some true →
        t.take_action ev a deck = some t ∧ t.deal deck = some t) := by
  intro ev t a deck
  constructor
  · have halive : (t.players.filter fun p => p.death_hand_number.isNone) =
        (t.players.filter fun p => p.is_alive) := rfl
    rw [halive]
    unfold Table.is_game_over
    cases hps : t.players with
    | nil => simp [reduceList]
    | cons p ps =>
      simp only [List.map_cons, reduceList, Option.map_some', Option.some.injEq,
        List.filter_cons]
      rw [foldl_alive_count]
      show (_ == (1 : Int)) = true ↔ _
      rw [beq_iff_eq]
      by_cases hp : p.is_alive
      · simp only [hp, ite_true, List.length_cons]
        constructor <;> intro h <;> omega
      · simp only [hp, ite_false, Bool.false_eq_true, if_neg]
        constructor <;> intro h <;> omega
  · intro h
    constructor
    · simp only [Table.take_action, h]
    · simp only [Table.deal, h]

/-- A frozen two-seat table: seat 1 is dead, only seat 0 alive. -/
def tGameOver : Table :=
  { tShowdown with
      players := [Player.new 0, { Player.new 1 with death_hand_number := some 1 }]
      player_bets := [0, 0] }

/-- Witness for C6 on the frozen table. -/
theorem game_over_freeze_witness :
    (tGameOver.is_game_over = some true ↔
      (tGameOver.players.filter fun p => p.death_hand_number.isNone).length = 1) ∧
    tGameOver.is_game_over = some true ∧
    tGameOver.take_action evConst .Fold [] = some tGameOver ∧
    tGameOver.deal [] = some tGameOver :=
  ⟨(game_over_freeze evConst tGameOver .Fold []).1, by decide,
    (game_over_freeze evConst tGameOver .Fold []).2 (by decide)⟩

/-! ## C9: results ranking -/

/-- Two alive seats with different stacks (500 and 400). -/
def tResults : Table :=
  { tShowdown with
      players := [Player.new 0, { Player.new 1 with total_money := 400 }]
      player_bets := [0, 0] }

/-- C9: Counterexample: the two alive players of tResults are not tied
under the §4.1 comparator (the richer one is strictly greater), yet
`get_results` prints rank 1 for both, because the tie test uses the
`PartialEq` instance, which compares only death_hand_number. -/
theorem results_rank_counterexample :
    tResults.get_results_ranked =
      some [(1, Player.new 0), (1, { Player.new 1 with total_money := 400 })] ∧
    playerCmp (Player.new 0) { Player.new 1 with total_money := 400 } = .gt := by
  exact ⟨by decide, by decide⟩

theorem ordCompareInt_gt_lt {a b : Int} (h : ordCompareInt a b = .gt) :
    ordCompareInt b a = .lt := by
  unfold ordCompareInt at h ⊢
  split_ifs at h ⊢ <;> simp_all
  omega

theorem playerCmp_gt_lt {p q : Player} (h : playerCmp p q = .gt) :
    playerCmp q p = .lt := by
  unfold playerCmp Player.is_alive at h ⊢
  by_cases hp : p.death_hand_number.isNone <;>
    by_cases hq : q.death_hand_number.isNone <;>
      simp [hp, hq] at h ⊢ <;>
      exact ordCompareInt_gt_lt h

theorem rankGo_map_snd :
    ∀ (l : List Player) (prev : Player) (i rank : Nat),
      (rankGo prev i rank l).map Prod.snd = l := by
  intro l
  induction l with
  | nil => intro prev i rank; rfl
  | cons x xs ih => intro prev i rank; simp [rankGo, ih]

theorem rankGo_adjacent :
    ∀ (l : List Player) (prev : Player) (i rank : Nat), rank ≤ i + 1 →
      ∀ (k : Nat) (r1 : Nat) (p : Player) (r2 : Nat) (q : Player),
        ((rank, prev) :: rankGo prev i rank l).get? k = some (r1, p) →
        ((rank, prev) :: rankGo prev i rank l).get? (k + 1) = some (r2, q) →
        (r2 = r1 ↔ p.death_hand_number = q.death_hand_number) := by
  intro l
  induction l with
  | nil =>
    intro prev i rank hinv k r1 p r2 q h1 h2
    cases k <;> simp [rankGo] at h2
  | cons x xs ih =>
    intro prev i rank hinv k r1 p r2 q h1 h2
    cases k with
    | zero =>
      obtain ⟨hr1, hpp⟩ : rank = r1 ∧ prev = p := by simpa using h1
      obtain ⟨hr2, hqq⟩ :
          (if !playerEq x prev then i + 2 else rank) = r2 ∧ x = q := by
        simpa [rankGo] using h2
      subst hr1
      subst hpp
      subst hqq
      by_cases heq : playerEq x prev
      · have hd : prev.death_hand_number = x.death_hand_number := by
          have hxp : x.death_hand_number = prev.death_hand_number := by
            simpa [playerEq] using heq
          exact hxp.symm
        rw [if_neg (by simp [heq])] at hr2
        constructor
        · intro _; exact hd
        · intro _; omega
      · have hd : ¬prev.death_hand_number = x.death_hand_number := by
          intro hc
          exact heq (by simp [playerEq, hc])
        rw [if_pos (by simp [heq])] at hr2
        constructor
        · intro hr
          exfalso
          omega
        · intro hc
          exact absurd hc hd
    | succ k =>
      have hinv2 : (if !playerEq x prev then i + 2 else rank) ≤ (i + 1) + 1 := by
        split <;> omega
      have h1s : ((if !playerEq x prev then i + 2 else rank, x) ::
          rankGo x (i + 1) (if !playerEq x prev then i + 2 else rank) xs).get? k =
          some (r1, p) := by
        simpa [rankGo] using h1
      have h2s : ((if !playerEq x prev then i + 2 else rank, x) ::
          rankGo x (i + 1) (if !playerEq x prev then i + 2 else rank) xs).get?
          (k + 1) = some (r2, q) := by
        simpa [rankGo] using h2
      exact ih x (i + 1) _ hinv2 k r1 p r2 q h1s h2s

/-- C9 (amended): `get_results` lists the players best-first by the
§4.1 comparator (it is the comparator-descending stable sort of the
seats, a permutation with no later player strictly better), but two
adjacent players share the same printed rank exactly when their
death_hand_numbers are equal — the `PartialEq` used by the tie test —
not when the full comparator ties: two alive players with different
total_money still share a rank. -/
theorem results_ranking_amended :
    ∀ (t : Table) (res : List (Nat × Player)),
      t.get_results_ranked = some res →
      res.map Prod.snd = sortByCmp (fun a b => playerCmp b a) t.players ∧
      (res.map Prod.snd).Perm t.players ∧
      List.Chain' (fun a b => playerCmp b a ≠ .gt) (res.map Prod.snd) ∧
      (∀ (k : Nat) (r1 : Nat) (p : Player) (r2 : Nat) (q : Player),
        res.get? k = some (r1, p) → res.get? (k + 1) = some (r2, q) →
        (r2 = r1 ↔ p.death_hand_number = q.death_hand_number)) := by
  intro t res h
  unfold Table.get_results_ranked at h
  cases hs : sortByCmp (fun a b => playerCmp b a) t.players with
  | nil => rw [hs] at h; exact absurd h (by simp)
  | cons p0 rest =>
    rw [hs] at h
    simp only [Option.some.injEq] at h
    subst h
    have hmap : (((1, p0) :: rankGo p0 0 1 rest).map Prod.snd) = p0 :: rest := by
      simp [rankGo_map_snd]
    have hswap : ∀ a b : Player,
        (fun a b => playerCmp b a) a b = .gt →
        (fun a b => playerCmp b a) b a = .lt := by
      intro a b hab
      exact playerCmp_gt_lt hab
    refine ⟨by rw [hmap], ?_, ?_, ?_⟩
    · rw [hmap, ← hs]
      exact sortByCmp_perm _ t.players
    · rw [hmap, ← hs]
      exact sortByCmp_chain _ hswap t.players
    · exact rankGo_adjacent rest p0 0 1 (by omega)

/-- Witness for the amended C9 on the concrete two-seat table. -/
theorem results_ranking_amended_witness :
    tResults.get_results_ranked =
      some [(1, Player.new 0), (1, { Player.new 1 with total_money := 400 })] ∧
    ([(1, Player.new 0),
      (1, { Player.new 1 with total_money := 400 })].map Prod.snd =
        sortByCmp (fun a b => playerCmp b a) tResults.players ∧
     ([(1, Player.new 0),
       (1, { Player.new 1 with total_money := 400 })].map Prod.snd).Perm
        tResults.players ∧
     List.Chain' (fun a b => playerCmp b a ≠ .gt)
       ([(1, Player.new 0),
         (1, { Player.new 1 with total_money := 400 })].map Prod.snd) ∧
     (∀ (k : Nat) (r1 : Nat) (p : Player) (r2 : Nat) (q : Player),
       [(1, Player.new 0),
        (1, { Player.new 1 with total_money := 400 })].get? k = some (r1, p) →
       [(1, Player.new 0),
        (1, { Player.new 1 with total_money := 400 })].get? (k + 1) =
         some (r2, q) →
       (r2 = r1 ↔ p.death_hand_number = q.death_hand_number))) :=
  ⟨by decide,
    results_ranking_amended tResults
      [(1, Player.new 0), (1, { Player.new 1 with total_money := 400 })]
      (by decide)⟩

/-! ## C5: the view projection and hole cards -/

/-- The hole cards of the seat the view actually reads cards from
(`self.get_current_player()`). -/
def Table.currentHoleCards (t : Table) : List Card :=
  match t.get_current_player with
  | none => []
  | some p =>
    match p.player_state with
    | .Folded => []
    | .Active a => [a.hand.1, a.hand.2]

/-- All community cards currently on the table. -/
def Table.boardCards (t : Table) : List Card :=
  (match t.flop with
   | none => []
   | some f => [f.1, f.2.1, f.2.2]) ++
  (match t.turn with
   | none => []
   | some c => [c]) ++
  (match t.river with
   | none => []
   | some c => [c])

/-- Seat 0, to act, holding AH KH. -/
def vp0 : Player :=
  { player_state := .Active { hand := (⟨14, 2⟩, ⟨13, 2⟩), current_bet := 1 }
    total_money := 499
    death_hand_number := none
    id := 0
    has_had_turn_this_round := false }

/-- Seat 1, holding 2C 3C. -/
def vp1 : Player :=
  { vp0 with id := 1
             player_state := .Active { hand := (⟨2, 0⟩, ⟨3, 0⟩), current_bet := 1 } }

/-- A PreFlop table with seat 0 to act, used to probe the view of
seat 1. -/
def tView : Table :=
  { players := [vp0, vp1]
    flop := some (⟨4, 0⟩, ⟨5, 0⟩, ⟨6, 0⟩)
    turn := some ⟨7, 0⟩
    river := some ⟨8, 0⟩
    dealer_button_index := 1
    ante := 1
    hand_number := 1
    current_player_index := 0
    table_state := .PreFlop
    player_bets := [1, 1]
    ante_round_increase := 4
    round_actions := [.DealCards { round_number := 1, dealer_button_index := 1 }]
    previous_round_actions := [] }

/-- C5: Counterexample: the view produced for seat 1 contains "AH", a
hole-card string of seat 0 (the current player), because the `cards`
field of `get_table_state_json_for_player` always reads
`get_current_player()`, whatever id is asked for; seat 1's own cards
are 2C and 3C. -/
theorem projection_leak_counterexample :
    tView.current_player_index = 0 ∧
    (tView.get_table_state_json_for_player 1).map
      (fun v => (stringAtoms v).contains "AH") = some true ∧
    vp0.player_state.get_cards_json = .jarr [.jstr "AH", .jstr "KH"] ∧
    vp1.player_state.get_cards_json = .jarr [.jstr "2C", .jstr "3C"] ∧
    vp0.id = 0 ∧ vp1.id = 1 := by
  refine ⟨by decide, by decide, rfl, rfl, by decide, by decide⟩

theorem tableAction_displayString_length (a : TableAction) :
    ¬a.displayString.length = 2 := by
  cases a with
  | TakePlayerAction id ha =>
    have h1 : 3 ≤ ("Player " : String).length := by decide
    simp only [TableAction.displayString, String.length_append]
    omega
  | DealCards d =>
    have h1 : 3 ≤ ("Table dealt round " : String).length := by decide
    simp only [TableAction.displayString, String.length_append]
    omega
  | AdvanceToFlop => decide
  | AdvanceToTurn => decide
  | AdvanceToRiver => decide
  | EvaluateHand s =>
    have h1 : 3 ≤
        ("Table evaluated hand with the following result: " : String).length := by
      decide
    simp only [TableAction.displayString, String.length_append]
    omega

theorem mem_atoms_jstr_map {c : String} :
    ∀ {l : List String}, c ∈ stringAtomsList (l.map JValue.jstr) → c ∈ l := by
  intro l
  induction l with
  | nil => intro h; simp [stringAtomsList] at h
  | cons x xs ih =>
    intro h
    simp only [List.map_cons, stringAtomsList, stringAtoms,
      List.singleton_append, List.mem_cons] at h
    cases h with
    | inl h => exact h ▸ List.mem_cons_self x xs
    | inr h => exact List.mem_cons_of_mem x (ih h)

theorem not_mem_action_strings {c : String} (hlen : c.length = 2)
    (acts : List TableAction) :
    c ∉ stringAtomsList ((Table.get_vec_of_strings_from_actions acts).map .jstr) := by
  intro h
  have h2 := mem_atoms_jstr_map h
  unfold Table.get_vec_of_strings_from_actions at h2
  obtain ⟨a, _, hc⟩ := List.mem_map.mp h2
  exact tableAction_displayString_length a (hc ▸ hlen)

theorem mem_atoms_players {c : String} :
    ∀ {ps : List Player},
      c ∈ stringAtomsList (ps.map Player.as_json_no_secret_data) →
      c = "folded" ∨ c = "active" := by
  intro ps
  induction ps with
  | nil => intro h; simp [stringAtomsList] at h
  | cons p ps ih =>
    intro h
    simp only [List.map_cons, stringAtomsList, List.mem_append] at h
    cases h with
    | inl h =>
      cases hst : p.player_state with
      | Folded =>
        left
        simpa [Player.as_json_no_secret_data,
          PlayerState.as_json_no_secret_data, hst, stringAtoms,
          stringAtomsObj, stringAtomsList] using h
      | Active a =>
        right
        simpa [Player.as_json_no_secret_data,
          PlayerState.as_json_no_secret_data, hst, stringAtoms,
          stringAtomsObj, stringAtomsList] using h
    | inr h => exact ih h

theorem not_mem_flop_secret {t : Table} {c : String} (hlen : c.length = 2)
    (hboard : ∀ card ∈ t.boardCards, card.toAsciiString ≠ c) :
    c ∉ stringAtoms t.get_flop_string_secret := by
  intro h
  unfold Table.get_flop_string_secret at h
  cases hf : t.flop with
  | none =>
    rw [hf] at h
    simp only [stringAtoms, stringAtomsList, List.append_nil,
      List.mem_singleton] at h
    rw [h] at hlen
    exact absurd hlen (by decide)
  | some f =>
    obtain ⟨f1, f2, f3⟩ := f
    rw [hf] at h
    cases hts : t.table_state <;> rw [hts] at h <;>
      simp [stringAtoms, stringAtomsList] at h
    · rw [h] at hlen
      exact absurd hlen (by decide)
    all_goals {
      have hb1 : f1 ∈ t.boardCards := by simp [Table.boardCards, hf]
      have hb2 : f2 ∈ t.boardCards := by simp [Table.boardCards, hf]
      have hb3 : f3 ∈ t.boardCards := by simp [Table.boardCards, hf]
      rcases h with h | h | h
      · exact hboard f1 hb1 h.symm
      · exact hboard f2 hb2 h.symm
      · exact hboard f3 hb3 h.symm }

theorem not_mem_turn_secret {t : Table} {c : String} (hlen : c.length = 2)
    (hboard : ∀ card ∈ t.boardCards, card.toAsciiString ≠ c) :
    c ∉ stringAtoms t.get_turn_string_secret := by
  intro h
  unfold Table.get_turn_string_secret at h
  cases ht : t.turn with
  | none =>
    rw [ht] at h
    simp only [stringAtoms, List.mem_singleton] at h
    rw [h] at hlen
    exact absurd hlen (by decide)
  | some card =>
    rw [ht] at h
    have hb : card ∈ t.boardCards := by simp [Table.boardCards, ht]
    cases hts : t.table_state <;> rw [hts] at h <;>
      simp only [stringAtoms, List.mem_singleton] at h
    · rw [h] at hlen
      exact absurd hlen (by decide)
    · rw [h] at hlen
      exact absurd hlen (by decide)
    · exact hboard card hb h.symm
    · exact hboard card hb h.symm

theorem not_mem_river_secret {t : Table} {c : String} (hlen : c.length = 2)
    (hboard : ∀ card ∈ t.boardCards, card.toAsciiString ≠ c) :
    c ∉ stringAtoms t.get_river_string_secret := by
  intro h
  unfold Table.get_river_string_secret at h
  cases ht : t.river with
  | none =>
    rw [ht] at h
    simp only [stringAtoms, List.mem_singleton] at h
    rw [h] at hlen
    exact absurd hlen (by decide)
  | some card =>
    rw [ht] at h
    have hb : card ∈ t.boardCards := by simp [Table.boardCards, ht]
    cases hts : t.table_state <;> rw [hts] at h <;>
      simp only [stringAtoms, List.mem_singleton] at h
    · rw [h] at hlen
      exact absurd hlen (by decide)
    · rw [h] at hlen
      exact absurd hlen (by decide)
    · rw [h] at hlen
      exact absurd hlen (by decide)
    · exact hboard card hb h.symm

/-- C5 (amended): whatever seat id `s` is passed, the view JSON
contains hole-card strings only of the CURRENT player (whose cards the
source reads via `get_current_player()`): any length-2 string distinct
from the current player's hole-card strings and from the board-card
strings occurs nowhere among the view's string leaves, whatever the
betting stage.  Other players appear only through
`as_json_no_secret_data`, which contributes no card strings.  (For the
claim's phrasing to hold, `s` must be the current seat; the
counterexample shows it fails for other seats.) -/
theorem projection_hides_noncurrent_cards :
    ∀ (t : Table) (s : Int) (v : JValue) (c : String),
      t.get_table_state_json_for_player s = some v →
      c.length = 2 →
      (∀ card ∈ t.currentHoleCards, card.toAsciiString ≠ c) →
      (∀ card ∈ t.boardCards, card.toAsciiString ≠ c) →
      c ∉ stringAtoms v := by
  intro t s v c hv hlen hcur hboard hmem
  unfold Table.get_table_state_json_for_player at hv
  cases hcp : t.get_current_player with
  | none => rw [hcp] at hv; exact absurd hv (by simp)
  | some cur =>
    cases hlb : t.get_largest_active_bet with
    | none => rw [hcp, hlb] at hv; exact absurd hv (by simp)
    | some largest =>
      rw [hcp, hlb] at hv
      simp only [Option.some.injEq] at hv
      subst hv
      simp only [stringAtoms, stringAtomsObj, stringAtomsList,
        List.append_nil, List.nil_append, List.mem_append] at hmem
      rcases hmem with h | h | h | h | h | h | h
      · cases hst : cur.player_state with
        | Folded =>
          rw [hst] at h
          simp [PlayerState.get_cards_json, stringAtoms, stringAtomsList] at h
        | Active a =>
          rw [hst] at h
          simp [PlayerState.get_cards_json, stringAtoms, stringAtomsList] at h
          have hcards : t.currentHoleCards = [a.hand.1, a.hand.2] := by
            simp [Table.currentHoleCards, hcp, hst]
          cases h with
          | inl h => exact hcur a.hand.1 (by simp [hcards]) h.symm
          | inr h => exact hcur a.hand.2 (by simp [hcards]) h.symm
      · exact not_mem_flop_secret hlen hboard h
      · exact not_mem_turn_secret hlen hboard h
      · exact not_mem_river_secret hlen hboard h
      · rcases mem_atoms_players h with h | h <;>
          (rw [h] at hlen; exact absurd hlen (by decide))
      · exact not_mem_action_strings hlen _ h
      · exact not_mem_action_strings hlen _ h

/-- Witness for the amended C5 on the concrete tView: "QS" is a
length-2 string matching no card in play, and it indeed occurs nowhere
in seat 1's view. -/
theorem projection_hides_noncurrent_cards_witness :
    (∃ v, tView.get_table_state_json_for_player 1 = some v ∧
      ("QS".length = 2) ∧
      (∀ card ∈ tView.currentHoleCards, card.toAsciiString ≠ "QS") ∧
      (∀ card ∈ tView.boardCards, card.toAsciiString ≠ "QS") ∧
      "QS" ∉ stringAtoms v) := by
  refine ⟨(tView.get_table_state_json_for_player 1).getD .null, rfl, by decide,
    by decide, by decide, ?_⟩
  exact projection_hides_noncurrent_cards tView 1 _ "QS" rfl (by decide)
    (by decide) (by decide)

end BotArena
